import Mathlib

/-!
Shallow embedding of the log-driven replication engine in `src/run.py`
(Firestore-based fan-out replicator).

The store model: a document holds a flat field map (key/value association
list, values kept opaque as strings) and a list of sub-collection children,
flattened into triples (sub-collection name, document id, child document).
A store's top level has the same shape: triples (collection, doc id, tree).

Failure injection: a real store call can raise at any destination; we model
this by an oracle `String → Nat → Bool` deciding whether the k-th operation
attempted at a named destination raises.  Each destination also records a
trace of the operations attempted at it.
-/

set_option autoImplicit false

namespace Bunny

/-- A document's fields: association list from field name to opaque value. -/
abbrev Fields := List (String × String)

/-- One document tree: fields plus children as (subCollection, docId, child)
triples, mirroring `for subcol in collections(): for subdoc in subcol.stream()`. -/
inductive Tree : Type where
  | node (fields : Fields) (subs : List (String × String × Tree))

/-- The empty / absent document (no fields, no sub-collections). -/
def Tree.empty : Tree := .node [] []

def Tree.fields : Tree → Fields
  | .node f _ => f

def Tree.subs : Tree → List (String × String × Tree)
  | .node _ s => s

/-- Write one field (in place if the key exists, else append) — the update
granularity of a Firestore merge write on flat fields. -/
def setField : Fields → String → String → Fields
  | [], k, v => [(k, v)]
  | (k', v') :: rest, k, v =>
      if k' = k then (k, v) :: rest else (k', v') :: setField rest k v

/-- `dest_doc_ref.set(doc_data, merge=True)`: every source field overwrites the
same-named destination field, destination fields absent from the source survive. -/
def mergeFields (dest src : Fields) : Fields :=
  src.foldl (fun acc kv => setField acc kv.1 kv.2) dest

/-- Look one field up. -/
def getVal : Fields → String → Option String
  | [], _ => none
  | (k', v') :: rest, k => if k' = k then some v' else getVal rest k

/-- Look a child document up by (collection, id). -/
def getChild : List (String × String × Tree) → String → String → Option Tree
  | [], _, _ => none
  | (c', i', t) :: rest, c, i =>
      if (c', i') = (c, i) then some t else getChild rest c i

/-- Store a child document at (collection, id): replace in place, or append. -/
def updateChild : List (String × String × Tree) → String → String → Tree →
    List (String × String × Tree)
  | [], c, i, t => [(c, i, t)]
  | (c', i', t') :: rest, c, i, t =>
      if (c', i') = (c, i) then (c, i, t) :: rest
      else (c', i', t') :: updateChild rest c i t

mutual

/-- `copy_doc_with_subcollections(src_doc_ref, dest_doc_ref)` from src/run.py:
read the source fields; if non-empty, merge-write them at the destination;
then recurse into every source sub-collection document.  The result is the
destination tree after the copy. -/
def copy_doc_with_subcollections : Tree → Tree → Tree
  | .node sf ss, .node df ds =>
      .node (if sf.isEmpty then df else mergeFields df sf) (copy_children ss ds)

/-- The recursion over `for subcol in src.collections(): for subdoc in subcol.stream()`:
each source child is copied into the matching destination child (created empty
when absent), in source order, threading the destination children through. -/
def copy_children : List (String × String × Tree) → List (String × String × Tree) →
    List (String × String × Tree)
  | [], ds => ds
  | (c, i, t) :: rest, ds =>
      copy_children rest
        (updateChild ds c i
          (copy_doc_with_subcollections t ((getChild ds c i).getD Tree.empty)))

end

/-- Well-formed document tree: field keys are distinct and child (collection, id)
keys are distinct, recursively — the shape every tree read from a real document
store has, since fields and document ids are map keys. -/
inductive WfTree : Tree → Prop where
  | node {f : Fields} {s : List (String × String × Tree)} :
      (f.map Prod.fst).Nodup →
      (s.map (fun x => (x.1, x.2.1))).Nodup →
      (∀ c i t, (c, i, t) ∈ s → WfTree t) →
      WfTree (.node f s)

/-- The (collection, id) keys of a child list. -/
def childKeys (l : List (String × String × Tree)) : List (String × String) :=
  l.map (fun x => (x.1, x.2.1))


/-! ### Store-level model -/

/-- A store's top-level data: (collection, docId, document tree) triples. -/
abbrev StoreData := List (String × String × Tree)

/-- `dest_db.collection(c).document(i).delete()`: remove the document. -/
def deleteDoc (s : StoreData) (c i : String) : StoreData :=
  s.filter (fun x => (x.1, x.2.1) ≠ (c, i))

/-- `src_db.collection(c).stream()`: the documents of one collection, in
stored order, as (docId, tree) pairs. -/
def collection_docs (s : StoreData) (c : String) : List (String × Tree) :=
  s.filterMap (fun x => if x.1 = c then some x.2 else none)

/-- Write the copy of one source document into a destination store at
(collection, id) — the body of the per-document loop of
`copy_entire_collection`, and the doc-id branch of `replicate_doc_to_all`. -/
def writeDocCopy (st : StoreData) (c i : String) (t : Tree) : StoreData :=
  updateChild st c i (copy_doc_with_subcollections t ((getChild st c i).getD Tree.empty))

/-- `copy_entire_collection(src_db, dest_db, collection)` from src/run.py:
streams the source collection, copies each document tree, and counts.
The count component is the value the Python function prints at the end;
the Python function itself has no return statement (it returns None). -/
def copy_entire_collection (src : StoreData) (dest : StoreData) (c : String) :
    StoreData × Nat :=
  (collection_docs src c).foldl
    (fun acc p => (writeDocCopy acc.1 c p.1 p.2, acc.2 + 1)) (dest, 0)

/-- `copy_entire_collection` under fault injection: `failDoc i = true` means the
store raises while copying document `i`.  The exception propagates out of the
loop immediately (there is no try/except in the function): the returned triple
is (destination state at that point, documents copied so far, raised error).
With the error set, the final count is never printed. -/
def copy_entire_collection_f (failDoc : String → Bool) (src : StoreData)
    (dest : StoreData) (c : String) : StoreData × Nat × Option String :=
  go (collection_docs src c) dest 0
where
  go : List (String × Tree) → StoreData → Nat → StoreData × Nat × Option String
    | [], st, n => (st, n, none)
    | (i, t) :: rest, st, n =>
        if failDoc i then (st, n, some i)
        else go rest (writeDocCopy st c i t) (n + 1)

/-- One operation attempted at a destination, as derived from a log entry
by `replicate_doc_to_all`: the collection, the optional doc id, and the
effective operation type. -/
structure Attempt where
  collection : String
  doc : Option String
  opType : String
deriving DecidableEq

/-- One registered destination: its registry name, its store state, and the
trace of operations attempted at it (instrumentation for the proofs). -/
structure Dest where
  name : String
  store : StoreData
  trace : List Attempt

/-- The state effect of one attempt on one destination store, mirroring the
branch structure inside `replicate_doc_to_all`'s try block:
delete with a doc id deletes; a doc id copies the source document when it
exists (otherwise no-op); no doc id copies the whole collection. -/
def apply_op (src : StoreData) (store : StoreData) (a : Attempt) : StoreData :=
  match a.doc with
  | some i =>
      if a.opType = "delete" then deleteDoc store a.collection i
      else
        match getChild src a.collection i with
        | some t => writeDocCopy store a.collection i t
        | none => store
  | none => (copy_entire_collection src store a.collection).1

/-- One iteration of `replicate_doc_to_all`'s destination loop for destination
`d`: the attempt is recorded, then the operation runs inside try/except — when
the oracle makes it raise, the exception is caught and the store is left as is,
and the loop moves on. -/
def dest_step (oracle : String → Nat → Bool) (src : StoreData) (d : Dest)
    (a : Attempt) : Dest :=
  if oracle d.name d.trace.length then
    { d with trace := d.trace ++ [a] }
  else
    { d with store := apply_op src d.store a, trace := d.trace ++ [a] }

/-- `replicate_doc_to_all(src_db, user_dbs, collection, doc_id, op_type)`:
applies the entry's operation to every destination in registry order; a
failure at one destination is caught inside the loop. -/
def replicate_doc_to_all (oracle : String → Nat → Bool) (src : StoreData)
    (dests : List Dest) (c : String) (docId : Option String) (opType : String) :
    List Dest :=
  dests.map (fun d => dest_step oracle src d ⟨c, docId, opType⟩)

/-! ### Log processor -/

/-- One change-log entry, a field of the per-day log record.
`collection = none` models a record missing the "collection" key (read with
`log_entry["collection"]`, which raises KeyError); `type = none` models a
missing "type" key (read with `log_entry.get("type", "create")`). -/
structure LogEntry where
  collection : Option String
  doc : Option String
  type : Option String
  processed : Bool
deriving DecidableEq

/-- `log_doc_ref.update({f"{log_id}.processed": True})`. -/
def markProcessed (l : List (String × LogEntry)) (lid : String) :
    List (String × LogEntry) :=
  l.map (fun p => if p.1 = lid then (p.1, { p.2 with processed := true }) else p)

/-- The loop of `process_logs_for_day` over the snapshot of the log record
(`logs = log_doc.to_dict()`), threading the stored log record and the
destinations.  An entry whose "collection" key is missing raises KeyError,
which nothing in the function catches: iteration stops there and the error
id is returned (third component some lid). -/
def process_go (oracle : String → Nat → Bool) (src : StoreData) :
    List (String × LogEntry) → List (String × LogEntry) → List Dest →
      List (String × LogEntry) × List Dest × Option String
  | [], stored, dests => (stored, dests, none)
  | (lid, e) :: rest, stored, dests =>
      if e.processed then process_go oracle src rest stored dests
      else
        match e.collection with
        | none => (stored, dests, some lid)
        | some c =>
            process_go oracle src rest (markProcessed stored lid)
              (replicate_doc_to_all oracle src dests c e.doc (e.type.getD "create"))

/-- `process_logs_for_day(src_db, user_dbs, date_str)`: when the day's log
record is absent, return without touching anything; otherwise run the entry
loop over the record snapshot. -/
def process_logs_for_day (oracle : String → Nat → Bool) (src : StoreData)
    (dests : List Dest) (logRecord : Option (List (String × LogEntry))) :
    List (String × LogEntry) × List Dest × Option String :=
  match logRecord with
  | none => ([], dests, none)
  | some entries => process_go oracle src entries entries dests

/-! ### Destination registry -/

/-- A credential blob of the registry configuration document: it either
decodes to a connection handle or fails to decode. -/
inductive Blob where
  | good (handle : Nat)
  | bad
deriving DecidableEq

/-- `init_db_from_json_str(json_str, app_name)`: decodes one credential blob
and returns a client handle, re-raising the decode error on failure (the
credential-decoding collaborator, at its interface boundary). -/
def init_db_from_json_str : Blob → Except Unit Nat
  | .good h => .ok h
  | .bad => .error ()

/-- The `for key, val in db_data.items(): user_dbs[key] = init_db_from_json_str(...)`
loop: `acc` is the `user_dbs` dict built so far.  There is no try/except around
the loop body, so a decode failure propagates: the result is the dict built so
far plus the key whose decode raised (none when the loop completed). -/
def load_user_dbs : List (String × Blob) → List (String × Nat) →
    List (String × Nat) × Option String
  | [], acc => (acc, none)
  | (k, b) :: rest, acc =>
      match init_db_from_json_str b with
      | .ok h => load_user_dbs rest (acc ++ [(k, h)])
      | .error _ => (acc, some k)

/-- Registry resolution from the `config/Firebase` document: when the document
is absent a warning is printed and `user_dbs` stays empty; otherwise the
decode loop runs over its fields. -/
def resolve_registry (regDoc : Option (List (String × Blob))) :
    List (String × Nat) × Option String :=
  match regDoc with
  | none => ([], none)
  | some entries => load_user_dbs entries []

/-! ### Derived notions used by the theorems -/

/-- Entries of a log record that the processor can read in full: every
pending (unprocessed) entry carries its "collection" key.  Processed entries
are skipped before the key is read, so they may be arbitrary. -/
def entriesWf (l : List (String × LogEntry)) : Prop :=
  ∀ p ∈ l, p.2.processed = false → (p.2.collection).isSome = true

/-- The operations a run derives from a log record snapshot: its entries
filtered to the unprocessed ones, in stored order, each turned into the
attempt `replicate_doc_to_all` receives for it. -/
def attemptsOf (l : List (String × LogEntry)) : List Attempt :=
  l.filterMap (fun p =>
    if p.2.processed then none
    else p.2.collection.map (fun c => ⟨c, p.2.doc, p.2.type.getD "create"⟩))

/-- The evolution of one destination over a list of attempts. -/
def dest_run (oracle : String → Nat → Bool) (src : StoreData) (d : Dest)
    (atts : List Attempt) : Dest :=
  atts.foldl (dest_step oracle src) d

/-- The evolution of the whole destination list over a list of attempts. -/
def fanout_fold (oracle : String → Nat → Bool) (src : StoreData)
    (dests : List Dest) (atts : List Attempt) : List Dest :=
  atts.foldl (fun ds a => ds.map (fun d => dest_step oracle src d a)) dests

/-- The marking pass the processor performs on the stored log record while
consuming snapshot `l`: each pending entry of the snapshot gets its id marked. -/
def markPass (l : List (String × LogEntry)) (stored : List (String × LogEntry)) :
    List (String × LogEntry) :=
  l.foldl (fun st p => if p.2.processed then st else markProcessed st p.1) stored

/-- Whether a credential blob decodes. -/
def blobOk : Blob → Bool
  | .good _ => true
  | .bad => false

/-- The handle a decodable blob yields. -/
def blobHandle : Blob → Nat
  | .good h => h
  | .bad => 0


/-! ### Field-level merge lemmas -/

theorem getVal_setField_self (d : Fields) (k v : String) :
    getVal (setField d k v) k = some v := by
  induction d with
  | nil => simp [setField, getVal]
  | cons hd tl ih =>
    by_cases h : hd.1 = k
    · simp [setField, getVal, h]
    · simp [setField, getVal, h, ih]

theorem getVal_setField_ne (d : Fields) (k k' v : String) (h : k' ≠ k) :
    getVal (setField d k' v) k = getVal d k := by
  induction d with
  | nil => simp [setField, getVal, h]
  | cons hd tl ih =>
    by_cases h2 : hd.1 = k'
    · simp [setField, getVal, h2, h]
    · simp [setField, getVal, h2, ih]

theorem setField_absorb (d : Fields) (k v : String) (h : getVal d k = some v) :
    setField d k v = d := by
  induction d with
  | nil => simp [getVal] at h
  | cons hd tl ih =>
    obtain ⟨k', v'⟩ := hd
    by_cases h2 : k' = k
    · subst h2
      simp [getVal] at h
      simp [setField, h]
    · simp [getVal, h2] at h
      simp [setField, h2, ih h]

theorem mergeFields_absorb (s d : Fields) (h : ∀ kv ∈ s, getVal d kv.1 = some kv.2) :
    mergeFields d s = d := by
  induction s generalizing d with
  | nil => rfl
  | cons hd tl ih =>
    have hd1 : setField d hd.1 hd.2 = d := setField_absorb d hd.1 hd.2 (h hd (by simp))
    show mergeFields (setField d hd.1 hd.2) tl = d
    rw [hd1]
    exact ih d (fun kv hkv => h kv (by simp [hkv]))

theorem getVal_mergeFields_not_mem (s d : Fields) (k : String)
    (h : k ∉ s.map Prod.fst) : getVal (mergeFields d s) k = getVal d k := by
  induction s generalizing d with
  | nil => rfl
  | cons hd tl ih =>
    simp only [List.map_cons, List.mem_cons, not_or] at h
    show getVal (mergeFields (setField d hd.1 hd.2) tl) k = getVal d k
    rw [ih (setField d hd.1 hd.2) h.2, getVal_setField_ne d k hd.1 hd.2 (Ne.symm h.1)]

theorem getVal_mergeFields_mem (s d : Fields) (k v : String)
    (hnd : (s.map Prod.fst).Nodup) (h : (k, v) ∈ s) :
    getVal (mergeFields d s) k = some v := by
  induction s generalizing d with
  | nil => simp at h
  | cons hd tl ih =>
    simp only [List.map_cons, List.nodup_cons] at hnd
    rcases List.mem_cons.mp h with h1 | h1
    · subst h1
      show getVal (mergeFields (setField d k v) tl) k = some v
      rw [getVal_mergeFields_not_mem tl _ k hnd.1, getVal_setField_self]
    · exact ih _ hnd.2 h1

/-- Re-merging the same source fields is a no-op (field keys are dict keys,
hence distinct). -/
theorem mergeFields_idem (s d : Fields) (hnd : (s.map Prod.fst).Nodup) :
    mergeFields (mergeFields d s) s = mergeFields d s :=
  mergeFields_absorb s _ (fun kv hkv => getVal_mergeFields_mem s d kv.1 kv.2 hnd hkv)

/-! ### Child-level lemmas -/

theorem getChild_updateChild_self (l : List (String × String × Tree)) (c i : String) (t : Tree) :
    getChild (updateChild l c i t) c i = some t := by
  induction l with
  | nil => simp [updateChild, getChild]
  | cons hd tl ih =>
    by_cases h : (hd.1, hd.2.1) = (c, i)
    · simp [updateChild, getChild, h]
    · obtain ⟨c', i', t'⟩ := hd
      simp only at h
      simp [updateChild, getChild, h, ih]

theorem getChild_updateChild_ne (l : List (String × String × Tree)) (c i c' i' : String)
    (t : Tree) (h : (c', i') ≠ (c, i)) :
    getChild (updateChild l c' i' t) c i = getChild l c i := by
  induction l with
  | nil => simp [updateChild, getChild, h]
  | cons hd tl ih =>
    by_cases h2 : (hd.1, hd.2.1) = (c', i')
    · obtain ⟨a, b, u⟩ := hd
      simp only at h2
      simp [updateChild, getChild, h2, h]
    · obtain ⟨a, b, u⟩ := hd
      simp only at h2
      simp only [updateChild, h2, if_neg]
      by_cases h3 : (a, b) = (c, i)
      · simp [getChild, h3]
      · simp [getChild, h3, ih]

theorem updateChild_absorb (l : List (String × String × Tree)) (c i : String) (t : Tree)
    (h : getChild l c i = some t) : updateChild l c i t = l := by
  induction l with
  | nil => simp [getChild] at h
  | cons hd tl ih =>
    obtain ⟨a, b, u⟩ := hd
    by_cases h2 : (a, b) = (c, i)
    · simp [getChild, h2] at h
      simp only [updateChild, h2, if_pos]
      obtain ⟨hc, hi⟩ := Prod.mk.injEq .. ▸ h2
      simp [hc, hi, h]
    · simp [getChild, h2] at h
      simp [updateChild, h2, ih h]

theorem getChild_copy_children_not_mem (ss ds : List (String × String × Tree))
    (c i : String) (h : (c, i) ∉ childKeys ss) :
    getChild (copy_children ss ds) c i = getChild ds c i := by
  induction ss generalizing ds with
  | nil => rfl
  | cons hd tl ih =>
    obtain ⟨c0, i0, t0⟩ := hd
    simp only [childKeys, List.map_cons, List.mem_cons, not_or] at h
    show getChild (copy_children tl _) c i = _
    rw [ih _ h.2, getChild_updateChild_ne _ _ _ _ _ _ (fun he => h.1 he.symm)]

theorem getChild_copy_children_mem (ss ds : List (String × String × Tree))
    (c i : String) (t : Tree) (hnd : (childKeys ss).Nodup) (h : (c, i, t) ∈ ss) :
    getChild (copy_children ss ds) c i =
      some (copy_doc_with_subcollections t ((getChild ds c i).getD Tree.empty)) := by
  induction ss generalizing ds with
  | nil => simp at h
  | cons hd tl ih =>
    obtain ⟨c0, i0, t0⟩ := hd
    simp only [childKeys, List.map_cons, List.nodup_cons] at hnd
    rcases List.mem_cons.mp h with h1 | h1
    · injection h1 with hc h2
      injection h2 with hi ht
      subst hc; subst hi; subst ht
      show getChild (copy_children tl _) c i = _
      rw [getChild_copy_children_not_mem tl _ c i hnd.1, getChild_updateChild_self]
    · have hne : (c0, i0) ≠ (c, i) := by
        intro he
        injection he with hc hi
        subst hc; subst hi
        exact hnd.1 (List.mem_map_of_mem (fun x => (x.1, x.2.1)) h1)
      show getChild (copy_children tl _) c i = _
      rw [ih _ hnd.2 h1, getChild_updateChild_ne _ _ _ _ _ _ hne]

theorem copy_children_absorb (ss ds : List (String × String × Tree))
    (h : ∀ c i t, (c, i, t) ∈ ss → ∃ x, getChild ds c i = some x ∧
      copy_doc_with_subcollections t x = x) :
    copy_children ss ds = ds := by
  induction ss generalizing ds with
  | nil => rfl
  | cons hd tl ih =>
    obtain ⟨c0, i0, t0⟩ := hd
    obtain ⟨x, hx, hcopy⟩ := h c0 i0 t0 (by simp)
    show copy_children tl _ = ds
    rw [hx]
    show copy_children tl (updateChild ds c0 i0 (copy_doc_with_subcollections t0 x)) = ds
    rw [hcopy, updateChild_absorb ds c0 i0 x hx]
    exact ih ds (fun c i t ht => h c i t (by simp [ht]))

theorem copy_children_idem (ss ds : List (String × String × Tree))
    (hnd : (childKeys ss).Nodup)
    (hrec : ∀ c i t, (c, i, t) ∈ ss → ∀ d,
      copy_doc_with_subcollections t (copy_doc_with_subcollections t d) =
        copy_doc_with_subcollections t d) :
    copy_children ss (copy_children ss ds) = copy_children ss ds := by
  refine copy_children_absorb ss _ (fun c i t ht => ?_)
  refine ⟨copy_doc_with_subcollections t ((getChild ds c i).getD Tree.empty), ?_, ?_⟩
  · exact getChild_copy_children_mem ss ds c i t hnd ht
  · exact hrec c i t ht _

/-- Claim C8 core: re-copying an unchanged well-formed source tree onto any
destination is a no-op (merge semantics). -/
theorem copy_idem (s : Tree) (hwf : WfTree s) :
    ∀ d, copy_doc_with_subcollections s (copy_doc_with_subcollections s d) =
      copy_doc_with_subcollections s d := by
  induction hwf with
  | @node f s hf hs hrec ih =>
    intro d
    obtain ⟨df, ds⟩ := d
    show Tree.node _ _ = Tree.node _ _
    congr 1
    · by_cases hf0 : f.isEmpty <;> simp [hf0, mergeFields_idem _ _ hf]
    · exact copy_children_idem s ds hs ih

theorem dest_step_name (oracle : String → Nat → Bool) (src : StoreData)
    (d : Dest) (a : Attempt) : (dest_step oracle src d a).name = d.name := by
  unfold dest_step
  split <;> rfl

theorem dest_step_trace (oracle : String → Nat → Bool) (src : StoreData)
    (d : Dest) (a : Attempt) : (dest_step oracle src d a).trace = d.trace ++ [a] := by
  unfold dest_step
  split <;> rfl

theorem dest_run_name (oracle : String → Nat → Bool) (src : StoreData)
    (d : Dest) (atts : List Attempt) : (dest_run oracle src d atts).name = d.name := by
  induction atts generalizing d with
  | nil => rfl
  | cons a rest ih =>
    show (dest_run oracle src (dest_step oracle src d a) rest).name = d.name
    rw [ih, dest_step_name]

/-- Each attempt is recorded at each destination, in order, whether or not the
operation raised there. -/
theorem dest_run_trace (oracle : String → Nat → Bool) (src : StoreData)
    (d : Dest) (atts : List Attempt) :
    (dest_run oracle src d atts).trace = d.trace ++ atts := by
  induction atts generalizing d with
  | nil => simp [dest_run]
  | cons a rest ih =>
    show (dest_run oracle src (dest_step oracle src d a) rest).trace = _
    rw [ih, dest_step_trace]
    simp

/-- A destination's evolution depends only on the oracle's verdicts for that
destination's own name. -/
theorem dest_run_agree (o1 o2 : String → Nat → Bool) (src : StoreData)
    (d : Dest) (atts : List Attempt) (h : ∀ k, o1 d.name k = o2 d.name k) :
    dest_run o1 src d atts = dest_run o2 src d atts := by
  induction atts generalizing d with
  | nil => rfl
  | cons a rest ih =>
    show dest_run o1 src (dest_step o1 src d a) rest = dest_run o2 src (dest_step o2 src d a) rest
    have hstep : dest_step o1 src d a = dest_step o2 src d a := by
      unfold dest_step
      rw [h d.trace.length]
    rw [hstep]
    exact ih (dest_step o2 src d a) (by rw [dest_step_name]; exact h)

/-- The destination loop commutes with the attempt fold: running all attempts
over the list is running each destination independently. -/
theorem fanout_fold_eq_map (oracle : String → Nat → Bool) (src : StoreData)
    (dests : List Dest) (atts : List Attempt) :
    fanout_fold oracle src dests atts =
      dests.map (fun d => dest_run oracle src d atts) := by
  induction atts generalizing dests with
  | nil => simp [fanout_fold, dest_run]
  | cons a rest ih =>
    show fanout_fold oracle src (dests.map fun d => dest_step oracle src d a) rest = _
    rw [ih]
    simp only [List.map_map]
    rfl

/-! ### Log-processor loop characterization -/

theorem process_go_dests (oracle : String → Nat → Bool) (src : StoreData)
    (l stored : List (String × LogEntry)) (dests : List Dest) (hwf : entriesWf l) :
    (process_go oracle src l stored dests).2.1 =
      fanout_fold oracle src dests (attemptsOf l) := by
  induction l generalizing stored dests with
  | nil => rfl
  | cons p rest ih =>
    obtain ⟨lid, e⟩ := p
    have hwf' : entriesWf rest := fun q hq => hwf q (List.mem_cons_of_mem _ hq)
    by_cases hp : e.processed
    · simp only [process_go, hp, if_true]
      rw [ih stored dests hwf']
      simp [attemptsOf, hp]
    · have hc : (e.collection).isSome = true :=
        hwf (lid, e) (List.mem_cons_self _ _) (Bool.not_eq_true _ ▸ by simpa using hp)
      obtain ⟨c, hc⟩ := Option.isSome_iff_exists.mp hc
      simp only [process_go, hp, if_false, Bool.false_eq_true, hc]
      rw [ih _ _ hwf']
      simp [attemptsOf, hp, hc, fanout_fold, replicate_doc_to_all]

theorem process_go_err (oracle : String → Nat → Bool) (src : StoreData)
    (l stored : List (String × LogEntry)) (dests : List Dest) (hwf : entriesWf l) :
    (process_go oracle src l stored dests).2.2 = none := by
  induction l generalizing stored dests with
  | nil => rfl
  | cons p rest ih =>
    obtain ⟨lid, e⟩ := p
    have hwf' : entriesWf rest := fun q hq => hwf q (List.mem_cons_of_mem _ hq)
    by_cases hp : e.processed
    · simp only [process_go, hp, if_true]
      exact ih stored dests hwf'
    · have hc : (e.collection).isSome = true :=
        hwf (lid, e) (List.mem_cons_self _ _) (Bool.not_eq_true _ ▸ by simpa using hp)
      obtain ⟨c, hc⟩ := Option.isSome_iff_exists.mp hc
      simp only [process_go, hp, if_false, Bool.false_eq_true, hc]
      exact ih _ _ hwf'

theorem markProcessed_mem_unprocessed (stored : List (String × LogEntry))
    (lid : String) (p : String × LogEntry) (hp : p ∈ markProcessed stored lid)
    (hu : p.2.processed = false) : p.1 ≠ lid ∧ p ∈ stored := by
  obtain ⟨q, hq, hqp⟩ := List.mem_map.mp hp
  by_cases h : q.1 = lid
  · rw [if_pos h] at hqp
    rw [← hqp] at hu
    simp at hu
  · rw [if_neg h] at hqp
    subst hqp
    exact ⟨h, hq⟩

/-- Every entry of the stored log record whose id has a pending occurrence in
the remaining snapshot ends up processed; instantiated with snapshot = stored
record, this says the processor marks every entry. -/
theorem process_go_marks (oracle : String → Nat → Bool) (src : StoreData)
    (l stored : List (String × LogEntry)) (dests : List Dest) (hwf : entriesWf l)
    (hcover : ∀ p ∈ stored, p.2.processed = false →
      ∃ e, (p.1, e) ∈ l ∧ e.processed = false) :
    ∀ p ∈ (process_go oracle src l stored dests).1, p.2.processed = true := by
  induction l generalizing stored dests with
  | nil =>
    intro p hp
    rcases Bool.eq_false_or_eq_true p.2.processed with h | h
    · exact h
    · obtain ⟨e, he, _⟩ := hcover p hp h
      simp at he
  | cons q rest ih =>
    obtain ⟨lid, e⟩ := q
    have hwf' : entriesWf rest := fun r hr => hwf r (List.mem_cons_of_mem _ hr)
    by_cases hp : e.processed
    · simp only [process_go, hp, if_true]
      refine ih stored dests hwf' (fun p hps hpu => ?_)
      obtain ⟨e', he', heu⟩ := hcover p hps hpu
      rcases List.mem_cons.mp he' with h1 | h1
      · injection h1 with h2 h3
        rw [h3] at heu
        rw [hp] at heu
        cases heu
      · exact ⟨e', h1, heu⟩
    · have hc : (e.collection).isSome = true :=
        hwf (lid, e) (List.mem_cons_self _ _) (Bool.not_eq_true _ ▸ by simpa using hp)
      obtain ⟨c, hc⟩ := Option.isSome_iff_exists.mp hc
      simp only [process_go, hp, if_false, Bool.false_eq_true, hc]
      refine ih _ _ hwf' (fun p hps hpu => ?_)
      obtain ⟨hne, hmem⟩ := markProcessed_mem_unprocessed stored lid p hps hpu
      obtain ⟨e', he', heu⟩ := hcover p hmem hpu
      rcases List.mem_cons.mp he' with h1 | h1
      · injection h1 with h2 h3
        exact absurd h2 hne
      · exact ⟨e', h1, heu⟩

theorem process_go_stored (oracle : String → Nat → Bool) (src : StoreData)
    (l stored : List (String × LogEntry)) (dests : List Dest) (hwf : entriesWf l) :
    (process_go oracle src l stored dests).1 = markPass l stored := by
  induction l generalizing stored dests with
  | nil => rfl
  | cons p rest ih =>
    obtain ⟨lid, e⟩ := p
    have hwf' : entriesWf rest := fun q hq => hwf q (List.mem_cons_of_mem _ hq)
    by_cases hp : e.processed
    · simp only [process_go, hp, if_true]
      rw [ih stored dests hwf']
      simp [markPass, hp]
    · have hc : (e.collection).isSome = true :=
        hwf (lid, e) (List.mem_cons_self _ _) (Bool.not_eq_true _ ▸ by simpa using hp)
      obtain ⟨c, hc⟩ := Option.isSome_iff_exists.mp hc
      simp only [process_go, hp, if_false, Bool.false_eq_true, hc]
      rw [ih _ _ hwf']
      simp [markPass, hp]

/-- Reaching an entry whose "collection" key is missing: the pending prefix is
fully fanned out and marked, then the KeyError stops everything — the result
is the state at that point together with the failing entry's id. -/
theorem process_go_malformed (oracle : String → Nat → Bool) (src : StoreData)
    (pre : List (String × LogEntry)) (lid : String) (m : LogEntry)
    (post stored : List (String × LogEntry)) (dests : List Dest)
    (hwf : entriesWf pre) (hm : m.processed = false) (hmc : m.collection = none) :
    process_go oracle src (pre ++ (lid, m) :: post) stored dests =
      (markPass pre stored, fanout_fold oracle src dests (attemptsOf pre), some lid) := by
  induction pre generalizing stored dests with
  | nil =>
    simp only [List.nil_append, process_go, hm, Bool.false_eq_true, if_false, hmc]
    rfl
  | cons p rest ih =>
    obtain ⟨lid', e⟩ := p
    have hwf' : entriesWf rest := fun q hq => hwf q (List.mem_cons_of_mem _ hq)
    by_cases hp : e.processed
    · simp only [List.cons_append, process_go, hp, if_true]
      rw [show markPass ((lid', e) :: rest) stored = markPass rest stored from by
            simp [markPass, hp],
          show attemptsOf ((lid', e) :: rest) = attemptsOf rest from by
            simp [attemptsOf, hp]]
      exact ih stored dests hwf'
    · have hc : (e.collection).isSome = true :=
        hwf (lid', e) (List.mem_cons_self _ _) (Bool.not_eq_true _ ▸ by simpa using hp)
      obtain ⟨c, hc⟩ := Option.isSome_iff_exists.mp hc
      simp only [List.cons_append, process_go, hp, if_false, Bool.false_eq_true, hc]
      rw [show markPass ((lid', e) :: rest) stored = markPass rest (markProcessed stored lid') from by
            simp [markPass, hp],
          show attemptsOf ((lid', e) :: rest) =
              Attempt.mk c e.doc (e.type.getD "create") :: attemptsOf rest from by
            simp [attemptsOf, hp, hc],
          show fanout_fold oracle src dests
                (Attempt.mk c e.doc (e.type.getD "create") :: attemptsOf rest) =
              fanout_fold oracle src
                (replicate_doc_to_all oracle src dests c e.doc (e.type.getD "create"))
                (attemptsOf rest) from rfl]
      exact ih _ _ hwf'

theorem fanout_fold_nil (oracle : String → Nat → Bool) (src : StoreData)
    (atts : List Attempt) : fanout_fold oracle src [] atts = [] := by
  rw [fanout_fold_eq_map]
  rfl

/-- The registry decode loop keeps exactly the prefix of decodable entries and
stops at the first undecodable one, whose key it reports. -/
theorem load_user_dbs_spec (entries : List (String × Blob)) (acc : List (String × Nat)) :
    load_user_dbs entries acc =
      (acc ++ (entries.takeWhile (fun p => blobOk p.2)).map (fun p => (p.1, blobHandle p.2)),
       (entries.dropWhile (fun p => blobOk p.2)).head?.map Prod.fst) := by
  induction entries generalizing acc with
  | nil => simp [load_user_dbs]
  | cons p rest ih =>
    obtain ⟨k, b⟩ := p
    cases b with
    | good h =>
      show load_user_dbs rest (acc ++ [(k, h)]) = _
      rw [ih]
      simp [List.takeWhile, List.dropWhile, blobOk, blobHandle]
    | bad =>
      show (acc, some k) = _
      simp [List.takeWhile, List.dropWhile, blobOk]

/-- The per-document loop of `copy_entire_collection` under fault injection:
the documents strictly before the first failing one are copied and counted,
and the first failing document's id is raised. -/
theorem copy_f_go_spec (failDoc : String → Bool) (c : String)
    (docs : List (String × Tree)) (st : StoreData) (n : Nat) :
    copy_entire_collection_f.go failDoc c docs st n =
      ((docs.takeWhile (fun p => !failDoc p.1)).foldl
          (fun acc p => writeDocCopy acc c p.1 p.2) st,
        n + (docs.takeWhile (fun p => !failDoc p.1)).length,
        ((docs.dropWhile (fun p => !failDoc p.1)).head?.map Prod.fst)) := by
  induction docs generalizing st n with
  | nil => simp [copy_entire_collection_f.go]
  | cons p rest ih =>
    obtain ⟨i, t⟩ := p
    by_cases hf : failDoc i
    · simp [copy_entire_collection_f.go, hf, List.takeWhile, List.dropWhile]
    · simp only [copy_entire_collection_f.go, hf, if_false, Bool.false_eq_true]
      rw [ih]
      simp [List.takeWhile, List.dropWhile, hf]
      omega

theorem copy_count_go (c : String) (docs : List (String × Tree)) (st : StoreData) (n : Nat) :
    (docs.foldl (fun acc p => (writeDocCopy acc.1 c p.1 p.2, acc.2 + 1)) (st, n)).2 =
      n + docs.length := by
  induction docs generalizing st n with
  | nil => rfl
  | cons p rest ih =>
    show (rest.foldl _ (writeDocCopy st c p.1 p.2, n + 1)).2 = _
    rw [ih]
    simp
    omega

/-! ### Claim theorems -/

/-- C1: for every failure oracle — including one failing every destination on
every entry — the log processor raises nothing and every entry of the stored
log record ends marked processed: each pending entry is handed to the fan-out
coordinator and marked unconditionally once the coordinator returns (the
well-formedness hypothesis says every pending entry has its collection key,
so the KeyError path is not taken). -/
theorem claim_C1_marks_unconditionally (oracle : String → Nat → Bool)
    (src : StoreData) (dests : List Dest) (entries : List (String × LogEntry))
    (hwf : entriesWf entries) :
    (process_logs_for_day oracle src dests (some entries)).2.2 = none ∧
      (process_logs_for_day oracle src dests (some entries)).2.1 =
        fanout_fold oracle src dests (attemptsOf entries) ∧
      ∀ p ∈ (process_logs_for_day oracle src dests (some entries)).1,
        p.2.processed = true := by
  refine ⟨process_go_err oracle src entries entries dests hwf,
    process_go_dests oracle src entries entries dests hwf, ?_⟩
  refine process_go_marks oracle src entries entries dests hwf ?_
  intro p hp hu
  exact ⟨p.2, by simpa using hp, hu⟩

/-- C1 witness: one pending entry, one destination, an oracle that fails every
destination operation — the entry is still marked and no error escapes. -/
theorem claim_C1_marks_unconditionally_witness :
    entriesWf [("log1", ⟨some "orders", some "A1", some "update", false⟩)] ∧
      ((process_logs_for_day (fun _ _ => true) [] [⟨"db1", [], []⟩]
          (some [("log1", ⟨some "orders", some "A1", some "update", false⟩)])).2.2 = none ∧
        (process_logs_for_day (fun _ _ => true) [] [⟨"db1", [], []⟩]
            (some [("log1", ⟨some "orders", some "A1", some "update", false⟩)])).2.1 =
          fanout_fold (fun _ _ => true) [] [⟨"db1", [], []⟩]
            (attemptsOf [("log1", ⟨some "orders", some "A1", some "update", false⟩)]) ∧
        ∀ p ∈ (process_logs_for_day (fun _ _ => true) [] [⟨"db1", [], []⟩]
            (some [("log1", ⟨some "orders", some "A1", some "update", false⟩)])).1,
          p.2.processed = true) :=
  ⟨by unfold entriesWf; decide,
   claim_C1_marks_unconditionally _ _ _ _ (by unfold entriesWf; decide)⟩

/-- C2: for every destination, the sequence of operations attempted there by a
run equals the log record's entries in stored order filtered to the
unprocessed ones, whatever the failure oracle decides at this or any other
destination; destination names are untouched. -/
theorem claim_C2_order_preservation (oracle : String → Nat → Bool)
    (src : StoreData) (dests : List Dest) (entries : List (String × LogEntry))
    (hwf : entriesWf entries) :
    (process_logs_for_day oracle src dests (some entries)).2.1.map Dest.trace =
        dests.map (fun d => d.trace ++ attemptsOf entries) ∧
      (process_logs_for_day oracle src dests (some entries)).2.1.map Dest.name =
        dests.map Dest.name := by
  have h : (process_go oracle src entries entries dests).2.1 =
      fanout_fold oracle src dests (attemptsOf entries) :=
    process_go_dests oracle src entries entries dests hwf
  constructor
  · show (process_go oracle src entries entries dests).2.1.map Dest.trace = _
    rw [h, fanout_fold_eq_map, List.map_map]
    rw [show (Dest.trace ∘ fun d => dest_run oracle src d (attemptsOf entries)) =
        (fun d => d.trace ++ attemptsOf entries) from
      funext (fun d => dest_run_trace oracle src d (attemptsOf entries))]
  · show (process_go oracle src entries entries dests).2.1.map Dest.name = _
    rw [h, fanout_fold_eq_map, List.map_map]
    rw [show (Dest.name ∘ fun d => dest_run oracle src d (attemptsOf entries)) = Dest.name from
      funext (fun d => dest_run_name oracle src d (attemptsOf entries))]

/-- C2 witness: two destinations, every operation on db1 failing, a log with a
processed entry between two pending ones — both destinations record exactly
the two pending operations, in log order. -/
theorem claim_C2_order_preservation_witness :
    entriesWf [("a", ⟨some "orders", some "A1", some "create", false⟩),
               ("b", ⟨some "users", none, some "create", true⟩),
               ("c", ⟨some "orders", some "A2", some "delete", false⟩)] ∧
      ((process_logs_for_day (fun n _ => n == "db1") []
            [⟨"db1", [], []⟩, ⟨"db2", [], []⟩]
            (some [("a", ⟨some "orders", some "A1", some "create", false⟩),
                   ("b", ⟨some "users", none, some "create", true⟩),
                   ("c", ⟨some "orders", some "A2", some "delete", false⟩)])).2.1.map Dest.trace =
          [[⟨"orders", some "A1", "create"⟩, ⟨"orders", some "A2", "delete"⟩],
           [⟨"orders", some "A1", "create"⟩, ⟨"orders", some "A2", "delete"⟩]] ∧
        (process_logs_for_day (fun n _ => n == "db1") []
            [⟨"db1", [], []⟩, ⟨"db2", [], []⟩]
            (some [("a", ⟨some "orders", some "A1", some "create", false⟩),
                   ("b", ⟨some "users", none, some "create", true⟩),
                   ("c", ⟨some "orders", some "A2", some "delete", false⟩)])).2.1.map Dest.name =
          ["db1", "db2"]) := by
  refine ⟨by unfold entriesWf; decide, ?_⟩
  have h := claim_C2_order_preservation (fun n _ => n == "db1") []
    [⟨"db1", [], []⟩, ⟨"db2", [], []⟩]
    [("a", ⟨some "orders", some "A1", some "create", false⟩),
     ("b", ⟨some "users", none, some "create", true⟩),
     ("c", ⟨some "orders", some "A2", some "delete", false⟩)]
    (by unfold entriesWf; decide)
  exact ⟨h.1.trans (by decide), h.2.trans (by decide)⟩

/-- C3 counterexample: a registry document with a bad credential blob between
two good ones.  The claim says the failure is scoped to the bad entry and the
other entries are still attempted; in fact resolution stops at the bad entry:
the good entry after it is never attempted and is absent from the result. -/
theorem claim_C3_counterexample :
    resolve_registry (some [("alpha", .good 1), ("beta", .bad), ("gamma", .good 2)]) =
        ([("alpha", 1)], some "beta") ∧
      (resolve_registry
          (some [("alpha", .good 1), ("beta", .bad), ("gamma", .good 2)])).1.lookup "gamma" =
        none :=
  ⟨rfl, rfl⟩

/-- C3 amended: a credential-decode failure is not scoped to its entry — the
registry keeps exactly the decodable prefix before the first bad blob, the
first bad entry's key is raised, and every entry after it is never attempted. -/
theorem claim_C3_amended_stops_at_first_bad (entries : List (String × Blob)) :
    resolve_registry (some entries) =
      ((entries.takeWhile (fun p => blobOk p.2)).map (fun p => (p.1, blobHandle p.2)),
       (entries.dropWhile (fun p => blobOk p.2)).head?.map Prod.fst) := by
  show load_user_dbs entries [] = _
  rw [load_user_dbs_spec]
  simp

/-- C4 counterexample: two documents in the source collection and a store that
raises while copying the first.  The claim says enumeration continues and the
other document is still copied; in fact the error propagates at once: nothing
is copied, the second document never reaches the destination. -/
theorem claim_C4_counterexample :
    copy_entire_collection_f (fun i => i == "d1")
        [("orders", "d1", Tree.empty), ("orders", "d2", Tree.node [("x", "1")] [])]
        [] "orders" =
      ([], 0, some "d1") := rfl

/-- C4 amended: a failing document copy aborts the collection pass: exactly the
documents before the first failing one are copied (and counted), and the first
failing document's id is raised out of the function — to be caught only by the
fan-out coordinator's per-destination handler. -/
theorem claim_C4_amended_stops_at_first_failure (failDoc : String → Bool)
    (src dest : StoreData) (c : String) :
    copy_entire_collection_f failDoc src dest c =
      (((collection_docs src c).takeWhile (fun p => !failDoc p.1)).foldl
          (fun acc p => writeDocCopy acc c p.1 p.2) dest,
        ((collection_docs src c).takeWhile (fun p => !failDoc p.1)).length,
        ((collection_docs src c).dropWhile (fun p => !failDoc p.1)).head?.map Prod.fst) := by
  show copy_entire_collection_f.go failDoc c (collection_docs src c) dest 0 = _
  rw [copy_f_go_spec]
  simp

/-- C5 counterexample: the source collection holds two documents and copying
the second raises.  The claim says a count equal to the source document count
is returned; in fact only one document was copied, the error propagates, and
no count is reported at all (and on success the Python function prints the
count but returns None). -/
theorem claim_C5_counterexample :
    copy_entire_collection_f (fun i => i == "d2")
        [("orders", "d1", Tree.node [("x", "1")] []),
         ("orders", "d2", Tree.node [("y", "2")] [])]
        [] "orders" =
      ([("orders", "d1", Tree.node [("x", "1")] [])], 1, some "d2") ∧
      (collection_docs
          [("orders", "d1", Tree.node [("x", "1")] []),
           ("orders", "d2", Tree.node [("y", "2")] [])] "orders").length = 2 :=
  ⟨rfl, rfl⟩

/-- C5 amended: when no per-document copy raises, the count
`copy_entire_collection` accumulates (and prints — the function returns None)
equals the number of documents currently in the named source collection. -/
theorem claim_C5_amended_count_equals_source_size (src dest : StoreData) (c : String) :
    (copy_entire_collection src dest c).2 = (collection_docs src c).length := by
  show ((collection_docs src c).foldl _ (dest, 0)).2 = _
  rw [copy_count_go]
  exact Nat.zero_add _

/-- C6 counterexample: a pending entry with no collection key followed by a
well-formed pending entry.  The claim says an error on one entry does not halt
the batch; in fact the KeyError raised for the malformed entry stops the loop:
the second entry is never fanned out and never marked. -/
theorem claim_C6_counterexample :
    process_logs_for_day (fun _ _ => false) [] [⟨"db1", [], []⟩]
        (some [("bad1", ⟨none, none, none, false⟩),
               ("log2", ⟨some "orders", some "A1", some "create", false⟩)]) =
      ([("bad1", ⟨none, none, none, false⟩),
        ("log2", ⟨some "orders", some "A1", some "create", false⟩)],
       [⟨"db1", [], []⟩], some "bad1") := rfl

/-- C6 amended: errors surfaced inside the fan-out (caught per destination) do
not halt the day's batch, but a pending entry whose collection key is missing
raises an uncaught KeyError: the pending prefix before it is fully fanned out
and marked, then processing stops — the malformed entry and everything after
it are left untouched. -/
theorem claim_C6_amended_malformed_entry_halts (oracle : String → Nat → Bool)
    (src : StoreData) (dests : List Dest) (pre : List (String × LogEntry))
    (lid : String) (m : LogEntry) (post : List (String × LogEntry))
    (hwf : entriesWf pre) (hm : m.processed = false) (hmc : m.collection = none) :
    process_logs_for_day oracle src dests (some (pre ++ (lid, m) :: post)) =
      (markPass pre (pre ++ (lid, m) :: post),
       fanout_fold oracle src dests (attemptsOf pre), some lid) :=
  process_go_malformed oracle src pre lid m post (pre ++ (lid, m) :: post) dests hwf hm hmc

/-- C6 amended witness: one good pending entry, then a malformed one, then
another good one, with every destination operation failing — the run halts at
the malformed entry with the first entry fanned out and marked. -/
theorem claim_C6_amended_malformed_entry_halts_witness :
    entriesWf [("log1", ⟨some "orders", some "A1", some "create", false⟩)] ∧
      (⟨none, none, none, false⟩ : LogEntry).processed = false ∧
      (⟨none, none, none, false⟩ : LogEntry).collection = none ∧
      process_logs_for_day (fun _ _ => true) [] [⟨"db1", [], []⟩]
          (some ([("log1", ⟨some "orders", some "A1", some "create", false⟩)] ++
            ("bad1", ⟨none, none, none, false⟩) ::
              [("log3", ⟨some "orders", none, some "create", false⟩)])) =
        (markPass [("log1", ⟨some "orders", some "A1", some "create", false⟩)]
            ([("log1", ⟨some "orders", some "A1", some "create", false⟩)] ++
              ("bad1", ⟨none, none, none, false⟩) ::
                [("log3", ⟨some "orders", none, some "create", false⟩)]),
         fanout_fold (fun _ _ => true) [] [⟨"db1", [], []⟩]
           (attemptsOf [("log1", ⟨some "orders", some "A1", some "create", false⟩)]),
         some "bad1") :=
  ⟨by unfold entriesWf; decide, rfl, rfl,
   claim_C6_amended_malformed_entry_halts _ _ _ _ _ _ _
     (by unfold entriesWf; decide) rfl rfl⟩

/-- C7: destination isolation — the i-th destination's final state and trace
depend only on the oracle's verdicts for that destination's own name, and the
processed-marking and the absence of a raised error do not depend on the
oracle at all: a failure forced on another destination can neither change what
happens at destination i nor stop any entry from being processed. -/
theorem claim_C7_destination_isolation (o1 o2 : String → Nat → Bool)
    (src : StoreData) (dests : List Dest) (entries : List (String × LogEntry))
    (i : Nat) (hwf : entriesWf entries) (h : i < dests.length)
    (hagree : ∀ k, o1 (dests.get ⟨i, h⟩).name k = o2 (dests.get ⟨i, h⟩).name k) :
    (process_logs_for_day o1 src dests (some entries)).2.1[i]? =
        (process_logs_for_day o2 src dests (some entries)).2.1[i]? ∧
      (process_logs_for_day o1 src dests (some entries)).1 =
        (process_logs_for_day o2 src dests (some entries)).1 ∧
      (process_logs_for_day o1 src dests (some entries)).2.2 = none := by
  refine ⟨?_, ?_, process_go_err o1 src entries entries dests hwf⟩
  · show (process_go o1 src entries entries dests).2.1[i]? =
      (process_go o2 src entries entries dests).2.1[i]?
    rw [process_go_dests o1 src entries entries dests hwf,
        process_go_dests o2 src entries entries dests hwf,
        fanout_fold_eq_map, fanout_fold_eq_map,
        List.getElem?_map, List.getElem?_map, List.getElem?_eq_getElem h]
    show some (dest_run o1 src (dests.get ⟨i, h⟩) (attemptsOf entries)) =
      some (dest_run o2 src (dests.get ⟨i, h⟩) (attemptsOf entries))
    exact congrArg some (dest_run_agree o1 o2 src _ _ hagree)
  · show (process_go o1 src entries entries dests).1 =
      (process_go o2 src entries entries dests).1
    rw [process_go_stored o1 src entries entries dests hwf,
        process_go_stored o2 src entries entries dests hwf]

/-- C7 witness: two destinations, oracle o1 failing everything on db1 while o2
fails nothing — db2's outcome, the marking and the absence of error coincide
under both oracles. -/
theorem claim_C7_destination_isolation_witness :
    entriesWf [("log1", ⟨some "orders", some "A1", some "create", false⟩),
               ("log2", ⟨some "orders", some "A1", some "delete", false⟩)] ∧
      (∀ k, (fun n (_ : Nat) => n == "db1")
            (([⟨"db1", [], []⟩, ⟨"db2", [], []⟩] : List Dest).get ⟨1, by decide⟩).name k =
          (fun _ _ => false)
            (([⟨"db1", [], []⟩, ⟨"db2", [], []⟩] : List Dest).get ⟨1, by decide⟩).name k) ∧
      ((process_logs_for_day (fun n _ => n == "db1") []
            [⟨"db1", [], []⟩, ⟨"db2", [], []⟩]
            (some [("log1", ⟨some "orders", some "A1", some "create", false⟩),
                   ("log2", ⟨some "orders", some "A1", some "delete", false⟩)])).2.1[1]? =
          (process_logs_for_day (fun _ _ => false) []
            [⟨"db1", [], []⟩, ⟨"db2", [], []⟩]
            (some [("log1", ⟨some "orders", some "A1", some "create", false⟩),
                   ("log2", ⟨some "orders", some "A1", some "delete", false⟩)])).2.1[1]? ∧
        (process_logs_for_day (fun n _ => n == "db1") []
            [⟨"db1", [], []⟩, ⟨"db2", [], []⟩]
            (some [("log1", ⟨some "orders", some "A1", some "create", false⟩),
                   ("log2", ⟨some "orders", some "A1", some "delete", false⟩)])).1 =
          (process_logs_for_day (fun _ _ => false) []
            [⟨"db1", [], []⟩, ⟨"db2", [], []⟩]
            (some [("log1", ⟨some "orders", some "A1", some "create", false⟩),
                   ("log2", ⟨some "orders", some "A1", some "delete", false⟩)])).1 ∧
        (process_logs_for_day (fun n _ => n == "db1") []
            [⟨"db1", [], []⟩, ⟨"db2", [], []⟩]
            (some [("log1", ⟨some "orders", some "A1", some "create", false⟩),
                   ("log2", ⟨some "orders", some "A1", some "delete", false⟩)])).2.2 = none) :=
  ⟨by unfold entriesWf; decide, fun _ => rfl,
   claim_C7_destination_isolation _ _ _ _ _ 1
     (by unfold entriesWf; decide) (by decide) (fun _ => rfl)⟩

/-- C8: copying the same unchanged well-formed source document tree a second
time leaves the destination exactly as after the first copy — the merge-write
semantics make the tree copy idempotent, with no field duplication or loss. -/
theorem claim_C8_idempotent_tree_copy (s d : Tree) (hwf : WfTree s) :
    copy_doc_with_subcollections s (copy_doc_with_subcollections s d) =
      copy_doc_with_subcollections s d :=
  copy_idem s hwf d

/-- Well-formedness of the concrete fixture tree used by the C8 witness. -/
theorem wfTree_fixture :
    WfTree (Tree.node [("status", "paid")]
      [("items", "i1", Tree.node [("qty", "2")] [])]) := by
  refine WfTree.node (by decide) (by decide) ?_
  intro c i t h
  simp only [List.mem_singleton] at h
  injection h with hc h2
  injection h2 with hi ht
  subst ht
  exact WfTree.node (by decide) (by decide) (fun c' i' t' h' => by simp at h')

/-- C8 witness: a two-level source tree copied twice onto a destination that
already holds an overlapping and an extra field. -/
theorem claim_C8_idempotent_tree_copy_witness :
    WfTree (Tree.node [("status", "paid")]
        [("items", "i1", Tree.node [("qty", "2")] [])]) ∧
      copy_doc_with_subcollections
          (Tree.node [("status", "paid")] [("items", "i1", Tree.node [("qty", "2")] [])])
          (copy_doc_with_subcollections
            (Tree.node [("status", "paid")] [("items", "i1", Tree.node [("qty", "2")] [])])
            (Tree.node [("status", "old"), ("extra", "keep")] [])) =
        copy_doc_with_subcollections
          (Tree.node [("status", "paid")] [("items", "i1", Tree.node [("qty", "2")] [])])
          (Tree.node [("status", "old"), ("extra", "keep")] []) :=
  ⟨wfTree_fixture, claim_C8_idempotent_tree_copy _ _ wfTree_fixture⟩

/-- C9 counterexample: the registry document is absent, so the run has zero
destinations — yet processing a log with one pending entry still mutates the
source store: the entry's processed flag flips to true, contradicting the
claim that no store state changes. -/
theorem claim_C9_counterexample :
    resolve_registry none = ([], none) ∧
      process_logs_for_day (fun _ _ => false) [] []
          (some [("log1", ⟨some "orders", some "A1", some "create", false⟩)]) =
        ([("log1", ⟨some "orders", some "A1", some "create", true⟩)], [], none) := by
  refine ⟨rfl, ?_⟩
  show (markProcessed [("log1", ⟨some "orders", some "A1", some "create", false⟩)] "log1",
      ([] : List Dest), (none : Option String)) = _
  rfl

/-- C9 amended: an absent registry document is indeed non-fatal and yields a
run over zero destinations, so no destination state exists to be touched and
no error is raised — but the run is not a no-op on the source store: every
pending log entry is still marked processed. -/
theorem claim_C9_amended_zero_destinations_still_marks (oracle : String → Nat → Bool)
    (src : StoreData) (entries : List (String × LogEntry)) (hwf : entriesWf entries) :
    resolve_registry none = ([], none) ∧
      (process_logs_for_day oracle src [] (some entries)).2.1 = [] ∧
      (process_logs_for_day oracle src [] (some entries)).2.2 = none ∧
      ∀ p ∈ (process_logs_for_day oracle src [] (some entries)).1,
        p.2.processed = true := by
  refine ⟨rfl, ?_, process_go_err oracle src entries entries [] hwf, ?_⟩
  · show (process_go oracle src entries entries []).2.1 = []
    rw [process_go_dests oracle src entries entries [] hwf, fanout_fold_nil]
  · refine process_go_marks oracle src entries entries [] hwf ?_
    intro p hp hu
    exact ⟨p.2, by simpa using hp, hu⟩

/-- C9 amended witness: registry absent, one pending entry — the run ends with
no error, no destinations, and the entry marked. -/
theorem claim_C9_amended_zero_destinations_still_marks_witness :
    entriesWf [("log1", ⟨some "orders", some "A1", some "create", false⟩)] ∧
      (resolve_registry none = ([], none) ∧
        (process_logs_for_day (fun _ _ => false) []
            [] (some [("log1", ⟨some "orders", some "A1", some "create", false⟩)])).2.1 = [] ∧
        (process_logs_for_day (fun _ _ => false) []
            [] (some [("log1", ⟨some "orders", some "A1", some "create", false⟩)])).2.2 = none ∧
        ∀ p ∈ (process_logs_for_day (fun _ _ => false) []
            [] (some [("log1", ⟨some "orders", some "A1", some "create", false⟩)])).1,
          p.2.processed = true) :=
  ⟨by unfold entriesWf; decide,
   claim_C9_amended_zero_destinations_still_marks _ _ _ (by unfold entriesWf; decide)⟩

/-- C10: an entry whose type key is absent is treated exactly as a create
entry: the destinations evolve as for an explicit create (document copy when a
doc id is present, whole-collection copy otherwise), the derived attempt
carries type create, no error is raised, and the entry is marked rather than
rejected. -/
theorem claim_C10_missing_type_defaults_to_create (oracle : String → Nat → Bool)
    (src : StoreData) (dests : List Dest) (lid c : String) (docId : Option String) :
    (process_logs_for_day oracle src dests
          (some [(lid, ⟨some c, docId, none, false⟩)])).2.1 =
        (process_logs_for_day oracle src dests
          (some [(lid, ⟨some c, docId, some "create", false⟩)])).2.1 ∧
      (process_logs_for_day oracle src dests
          (some [(lid, ⟨some c, docId, none, false⟩)])).2.2 = none ∧
      (process_logs_for_day oracle src dests
          (some [(lid, ⟨some c, docId, none, false⟩)])).1 =
        [(lid, ⟨some c, docId, none, true⟩)] ∧
      attemptsOf [(lid, ⟨some c, docId, none, false⟩)] = [⟨c, docId, "create"⟩] := by
  refine ⟨rfl, rfl, ?_, rfl⟩
  show markProcessed [(lid, ⟨some c, docId, none, false⟩)] lid = _
  simp [markProcessed]

end Bunny
